import Mathlib

/-!
Verification of the client-side file validation and sanitization pipeline
(`src/lib/file-validation.ts`): a shallow embedding of the `FileValidator`
class — size / declared-type / extension checks, name sanitization with an
early valid return on rename, an executable-suffix denylist, and a 4-byte
PDF magic-number sniff — together with theorems about its behaviour.

File contents (`File` objects in the browser) are modelled as an optional
byte list: `none` stands for content that the `FileReader` fails to read
(its `onerror` handler resolves the PDF-header sniff to `false`).
-/

set_option maxHeartbeats 1000000
set_option maxRecDepth 100000

namespace FileValidation

/-- A candidate file: name, byte size, declared MIME type, and content
(`none` models content the reader cannot deliver). -/
structure FileCandidate where
  name : String
  size : Nat
  type : String
  content : Option (List Nat)
deriving DecidableEq, Repr

/-- `FileValidationResult` from the source: `isValid`, optional `error`
message, optional `sanitizedFile` replacement. -/
structure FileValidationResult where
  isValid : Bool
  error : Option String := none
  sanitizedFile : Option FileCandidate := none
deriving DecidableEq, Repr

/-- `Required<FileValidationOptions>`: the fully populated configuration. -/
structure FileValidationOptions where
  maxSizeBytes : Nat
  allowedTypes : List String
  allowedExtensions : List String
  scanForMalware : Bool
deriving DecidableEq, Repr

/-- `DEFAULT_OPTIONS` from the source. -/
def DEFAULT_OPTIONS : FileValidationOptions where
  maxSizeBytes := 10 * 1024 * 1024
  allowedTypes := ["application/pdf", "image/jpeg", "image/png", "image/gif", "image/webp"]
  allowedExtensions := [".pdf", ".jpg", ".jpeg", ".png", ".gif", ".webp"]
  scanForMalware := false

/-- Partially specified options, as accepted by the `FileValidator`
constructor. -/
structure FileValidationOptionsPartial where
  maxSizeBytes : Option Nat := none
  allowedTypes : Option (List String) := none
  allowedExtensions : Option (List String) := none
  scanForMalware : Option Bool := none

/-- The constructor's `{ ...DEFAULT_OPTIONS, ...options }` merge. -/
def mergeOptions (o : FileValidationOptionsPartial) : FileValidationOptions where
  maxSizeBytes := o.maxSizeBytes.getD DEFAULT_OPTIONS.maxSizeBytes
  allowedTypes := o.allowedTypes.getD DEFAULT_OPTIONS.allowedTypes
  allowedExtensions := o.allowedExtensions.getD DEFAULT_OPTIONS.allowedExtensions
  scanForMalware := o.scanForMalware.getD DEFAULT_OPTIONS.scanForMalware

/-- The options held by the exported default instance
`export const fileValidator = new FileValidator()`. -/
def fileValidator : FileValidationOptions := mergeOptions {}

/-- The ASCII case pairs of JavaScript `toLowerCase` (every string the
validator compares after lowering is ASCII). -/
def asciiCasePairs : List (Char × Char) :=
  [('A', 'a'), ('B', 'b'), ('C', 'c'), ('D', 'd'), ('E', 'e'), ('F', 'f'),
   ('G', 'g'), ('H', 'h'), ('I', 'i'), ('J', 'j'), ('K', 'k'), ('L', 'l'),
   ('M', 'm'), ('N', 'n'), ('O', 'o'), ('P', 'p'), ('Q', 'q'), ('R', 'r'),
   ('S', 's'), ('T', 't'), ('U', 'u'), ('V', 'v'), ('W', 'w'), ('X', 'x'),
   ('Y', 'y'), ('Z', 'z')]

/-- ASCII fragment of JavaScript `toLowerCase`, one character at a time. -/
def lowerChar (c : Char) : Char :=
  match asciiCasePairs.find? (fun p => p.1 == c) with
  | some p => p.2
  | none => c

def lowerChars (l : List Char) : List Char := l.map lowerChar

def lowerString (s : String) : String := String.mk (lowerChars s.data)

/-- `getFileExtension`, i.e.
`filename.slice((filename.lastIndexOf('.') - 1 >>> 0) + 2)`.
With the last `.` at index `i ≥ 1` the start index is `i + 1`: the
substring strictly after the last dot (the dot excluded). The `>>> 0`
wraps in two cases: with no dot (`i = -1`) the start index becomes
`2 ^ 32`, and with the last dot at index 0 (`i = 0`, a name such as
`".pdf"` whose only dot leads) it becomes `2 ^ 32 + 1`; both are past the
end, so `slice` yields the empty string. A dot at character position
`≥ 1` is a dot at UTF-16 position `≥ 1` and conversely, so testing the
character tail is faithful. -/
def getFileExtension (filename : String) : String :=
  if (filename.data.drop 1).contains '.' then
    String.mk ((filename.data.reverse.takeWhile (fun c => c != '.')).reverse)
  else
    ""

/-- The characters `/[<>:"/\\|?*]/` replaced by `_` during sanitization. -/
def dangerousChars : List Char := ['<', '>', ':', '"', '/', '\\', '|', '?', '*']

/-- The full `/\s/` character class of ECMAScript (WhiteSpace together
with LineTerminator): TAB LF VT FF CR SPACE, NBSP U+00A0, OGHAM U+1680,
the U+2000–U+200A spaces, LS U+2028, PS U+2029, NNBSP U+202F,
MMSP U+205F, IDSP U+3000 and ZWNBSP U+FEFF. All are single UTF-16 units,
so per-character matching coincides with the source regex's per-unit
matching. -/
def jsWhitespaceChars : List Char :=
  ['\t', '\n', Char.ofNat 11, Char.ofNat 12, '\r', ' ',
   Char.ofNat 160, Char.ofNat 5760,
   Char.ofNat 8192, Char.ofNat 8193, Char.ofNat 8194, Char.ofNat 8195,
   Char.ofNat 8196, Char.ofNat 8197, Char.ofNat 8198, Char.ofNat 8199,
   Char.ofNat 8200, Char.ofNat 8201, Char.ofNat 8202,
   Char.ofNat 8232, Char.ofNat 8233, Char.ofNat 8239, Char.ofNat 8287,
   Char.ofNat 12288, Char.ofNat 65279]

/-- `.replace(/[<>:"/\\|?*]/g, '_')`. -/
def replaceDangerous (l : List Char) : List Char :=
  l.map fun c => if dangerousChars.contains c then '_' else c

/-- Replace every maximal run of characters satisfying `p` by the single
character `sub`; `inRun = true` records that the current position continues
a run already begun. `collapseRuns p sub l false` is `replace` with pattern
"one or more `p` characters" and replacement `sub`, which also realises the
`/_{2,}/g → '_'` rule (a singleton run is rewritten to itself). -/
def collapseRuns (p : Char → Bool) (sub : Char) : List Char → Bool → List Char
  | [], _ => []
  | c :: rest, inRun =>
    if p c then
      if inRun then collapseRuns p sub rest true
      else sub :: collapseRuns p sub rest true
    else c :: collapseRuns p sub rest false

def isUnderscore (c : Char) : Bool := c == '_'

def isJsWhitespace (c : Char) : Bool := jsWhitespaceChars.contains c

/-- `.replace(/^_+|_+$/g, '')`: remove leading and trailing underscores. -/
def stripUnderscores (l : List Char) : List Char :=
  List.rdropWhile isUnderscore (List.dropWhile isUnderscore l)

/-- UTF-16 width of a character: code points beyond the BMP occupy two
units (a surrogate pair) in a JavaScript string. -/
def utf16Len (c : Char) : Nat := if c.toNat < 65536 then 1 else 2

/-- UTF-16 length of a character list, as `String.prototype.length`
counts it. -/
def utf16Length (l : List Char) : Nat := (l.map utf16Len).sum

/-- `substring(0, n)` counted in UTF-16 units. When the cut falls inside
a surrogate pair the source keeps the lone high surrogate, which no
`Char` can represent; the model drops the split character, the closest
representable behaviour (the divergence is only reachable past the
255-unit cap, outside every bounded statement below). -/
def takeUnits : Nat → List Char → List Char
  | _, [] => []
  | n, c :: rest =>
    if utf16Len c ≤ n then c :: takeUnits (n - utf16Len c) rest else []

/-- `sanitizeFileName` on character lists: replace dangerous characters by
`_`, collapse whitespace runs to `_`, collapse underscore runs, strip
leading and trailing underscores (`/^_+|_+$/g`), truncate to 255 UTF-16
units (`substring(0, 255)`). -/
def sanitizeChars (l : List Char) : List Char :=
  takeUnits 255
    (stripUnderscores
      (collapseRuns isUnderscore '_'
        (collapseRuns isJsWhitespace '_' (replaceDangerous l) false) false))

def sanitizeFileName (filename : String) : String :=
  String.mk (sanitizeChars filename.data)

/-- The `suspiciousPatterns` denylist, each `/\.xyz$/i`. -/
def suspiciousSuffixes : List String :=
  [".exe", ".bat", ".cmd", ".scr", ".pif", ".com", ".vbs", ".js", ".jar"]

/-- `pattern.test(file.name)` for some denylist pattern: a case-insensitive
end-of-name match. -/
def matchesSuspiciousPattern (name : String) : Bool :=
  suspiciousSuffixes.any fun suf => suf.data.isSuffixOf (lowerChars name.data)

/-- `validatePdfHeader`: read the first 4 bytes (`file.slice(0, 4)`), build
a string from their char codes and compare with `"%PDF"`
(`[37, 80, 68, 70]`); an unreadable file resolves `false` through the
`onerror` handler. A file shorter than 4 bytes yields a shorter string,
which also fails the comparison. -/
def validatePdfHeader (c : FileCandidate) : Bool :=
  match c.content with
  | none => false
  | some bytes => bytes.take 4 == [37, 80, 68, 70]

/-- `performSecurityChecks`: denylist suffix scan, then the PDF header
sniff for candidates declared `application/pdf`. -/
def performSecurityChecks (c : FileCandidate) : FileValidationResult :=
  if matchesSuspiciousPattern c.name then
    { isValid := false, error := some "File type not allowed for security reasons" }
  else if c.type = "application/pdf" ∧ validatePdfHeader c = false then
    { isValid := false, error := some "Invalid PDF file format" }
  else
    { isValid := true }

def sizeUnits : List String := ["Bytes", "KB", "MB", "GB"]

/-- Decimal rendering of `hundredths / 100` with up to two decimals and
trailing zeros dropped, as `parseFloat(x.toFixed(2))` displays. -/
def renderHundredths (hundredths : Nat) : String :=
  if hundredths % 100 = 0 then toString (hundredths / 100)
  else if hundredths % 10 = 0 then
    toString (hundredths / 100) ++ "." ++ toString (hundredths % 100 / 10)
  else if hundredths % 100 < 10 then
    toString (hundredths / 100) ++ ".0" ++ toString (hundredths % 100)
  else
    toString (hundredths / 100) ++ "." ++ toString (hundredths % 100)

/-- `formatBytes`, modelled over naturals: the floating
`Math.floor(Math.log(bytes) / Math.log(1024))` is `Nat.log 1024 bytes` and
`toFixed(2)` rounds to hundredths (ties, which toFixed settles through
binary float arithmetic, are modelled half-up:
`(bytes * 200 + 1024 ^ i) / (2 * 1024 ^ i)` is the nearest-hundredths
numerator); no other definition reads this text back. Past `GB` the array
access is `undefined`, as in the source. -/
def formatBytes (bytes : Nat) : String :=
  if bytes = 0 then "0 Bytes"
  else
    renderHundredths
        ((bytes * 200 + 1024 ^ Nat.log 1024 bytes) / (2 * 1024 ^ Nat.log 1024 bytes)) ++
      " " ++ (sizeUnits.getD (Nat.log 1024 bytes) "undefined")

def sizeErrorMsg (opts : FileValidationOptions) : String :=
  "File size exceeds limit. Maximum allowed: " ++ formatBytes opts.maxSizeBytes

def typeErrorMsg (opts : FileValidationOptions) (c : FileCandidate) : String :=
  "Unsupported file type: " ++ c.type ++ ". Allowed types: " ++
    String.intercalate ", " opts.allowedTypes

def extErrorMsg (opts : FileValidationOptions) (c : FileCandidate) : String :=
  "Unsupported file extension: " ++ getFileExtension c.name ++
    ". Allowed extensions: " ++ String.intercalate ", " opts.allowedExtensions

/-- The `try` block of `validateFile`: checks 1–5 in source order. The
rename branch builds `new File([file], sanitizedName, { type: file.type })`
— same bytes, same size, same declared type, new name. A thrown fault
would surface as `Except.error`. -/
def validateFileBody (opts : FileValidationOptions) (c : FileCandidate) :
    Except String FileValidationResult :=
  if c.size > opts.maxSizeBytes then
    Except.ok { isValid := false, error := some (sizeErrorMsg opts) }
  else if c.type ∉ opts.allowedTypes then
    Except.ok { isValid := false, error := some (typeErrorMsg opts c) }
  else if lowerString (getFileExtension c.name) ∉ opts.allowedExtensions then
    Except.ok { isValid := false, error := some (extErrorMsg opts c) }
  else if sanitizeFileName c.name ≠ c.name then
    Except.ok { isValid := true,
                sanitizedFile := some { c with name := sanitizeFileName c.name } }
  else if (performSecurityChecks c).isValid = false then
    Except.ok (performSecurityChecks c)
  else
    Except.ok { isValid := true }

/-- The `catch (error)` clause: any fault becomes an invalid result with
the generic wrapped message. -/
def catchValidation (r : Except String FileValidationResult) : FileValidationResult :=
  match r with
  | Except.ok res => res
  | Except.error msg =>
    { isValid := false, error := some ("File validation failed: " ++ msg) }

/-- `FileValidator.validateFile` with option set `opts`. -/
def validateFile (opts : FileValidationOptions) (c : FileCandidate) : FileValidationResult :=
  catchValidation (validateFileBody opts c)

/-! ## Branch lemmas for `validateFile` -/

theorem validateFile_size_fail {opts : FileValidationOptions} {c : FileCandidate}
    (h1 : c.size > opts.maxSizeBytes) :
    validateFile opts c =
      { isValid := false, error := some (sizeErrorMsg opts), sanitizedFile := none } := by
  unfold validateFile validateFileBody
  rw [if_pos h1]; rfl

theorem validateFile_type_fail {opts : FileValidationOptions} {c : FileCandidate}
    (h1 : ¬c.size > opts.maxSizeBytes) (h2 : c.type ∉ opts.allowedTypes) :
    validateFile opts c =
      { isValid := false, error := some (typeErrorMsg opts c), sanitizedFile := none } := by
  unfold validateFile validateFileBody
  rw [if_neg h1, if_pos h2]; rfl

theorem validateFile_ext_fail {opts : FileValidationOptions} {c : FileCandidate}
    (h1 : ¬c.size > opts.maxSizeBytes) (h2 : c.type ∈ opts.allowedTypes)
    (h3 : lowerString (getFileExtension c.name) ∉ opts.allowedExtensions) :
    validateFile opts c =
      { isValid := false, error := some (extErrorMsg opts c), sanitizedFile := none } := by
  unfold validateFile validateFileBody
  rw [if_neg h1, if_neg (not_not_intro h2), if_pos h3]; rfl

theorem validateFile_renames {opts : FileValidationOptions} {c : FileCandidate}
    (h1 : ¬c.size > opts.maxSizeBytes) (h2 : c.type ∈ opts.allowedTypes)
    (h3 : lowerString (getFileExtension c.name) ∈ opts.allowedExtensions)
    (h4 : sanitizeFileName c.name ≠ c.name) :
    validateFile opts c =
      { isValid := true, error := none,
        sanitizedFile := some { c with name := sanitizeFileName c.name } } := by
  unfold validateFile validateFileBody
  rw [if_neg h1, if_neg (not_not_intro h2), if_neg (not_not_intro h3), if_pos h4]; rfl

theorem performSecurityChecks_shape (c : FileCandidate) :
    performSecurityChecks c = { isValid := true, error := none, sanitizedFile := none } ∨
      ∃ m, performSecurityChecks c =
        { isValid := false, error := some m, sanitizedFile := none } := by
  unfold performSecurityChecks
  by_cases hs : matchesSuspiciousPattern c.name
  · rw [if_pos hs]; exact Or.inr ⟨_, rfl⟩
  · rw [if_neg hs]
    by_cases hp : c.type = "application/pdf" ∧ validatePdfHeader c = false
    · rw [if_pos hp]; exact Or.inr ⟨_, rfl⟩
    · rw [if_neg hp]; exact Or.inl rfl

theorem validateFile_security {opts : FileValidationOptions} {c : FileCandidate}
    (h1 : ¬c.size > opts.maxSizeBytes) (h2 : c.type ∈ opts.allowedTypes)
    (h3 : lowerString (getFileExtension c.name) ∈ opts.allowedExtensions)
    (h4 : sanitizeFileName c.name = c.name) :
    validateFile opts c = performSecurityChecks c := by
  unfold validateFile validateFileBody
  rw [if_neg h1, if_neg (not_not_intro h2), if_neg (not_not_intro h3),
    if_neg (not_not_intro h4)]
  by_cases h5 : (performSecurityChecks c).isValid = false
  · rw [if_pos h5]; rfl
  · rw [if_neg h5]
    rcases performSecurityChecks_shape c with h | ⟨m, h⟩
    · rw [h]; rfl
    · rw [h] at h5; simp at h5

theorem psc_suspicious {c : FileCandidate}
    (h : matchesSuspiciousPattern c.name = true) :
    performSecurityChecks c =
      { isValid := false, error := some "File type not allowed for security reasons",
        sanitizedFile := none } := by
  unfold performSecurityChecks
  rw [if_pos h]

theorem psc_pdf_header_fail {c : FileCandidate}
    (h : matchesSuspiciousPattern c.name = false)
    (ht : c.type = "application/pdf") (hh : validatePdfHeader c = false) :
    performSecurityChecks c =
      { isValid := false, error := some "Invalid PDF file format",
        sanitizedFile := none } := by
  unfold performSecurityChecks
  rw [if_neg (by simp [h]), if_pos ⟨ht, hh⟩]

theorem psc_valid {c : FileCandidate}
    (h : matchesSuspiciousPattern c.name = false)
    (hp : c.type = "application/pdf" → validatePdfHeader c = true) :
    performSecurityChecks c = { isValid := true, error := none, sanitizedFile := none } := by
  unfold performSecurityChecks
  rw [if_neg (by simp [h]), if_neg (by rintro ⟨ht, hh⟩; rw [hp ht] at hh; cases hh)]

/-- Every result of `validateFile` has one of three shapes: invalid with a
message and no replacement, valid with a renamed replacement and no
message, or plainly valid. -/
theorem validateFile_shape (opts : FileValidationOptions) (c : FileCandidate) :
    (∃ m, validateFile opts c =
        { isValid := false, error := some m, sanitizedFile := none }) ∨
    (∃ s, validateFile opts c =
        { isValid := true, error := none, sanitizedFile := some s }) ∨
    validateFile opts c = { isValid := true, error := none, sanitizedFile := none } := by
  by_cases h1 : c.size > opts.maxSizeBytes
  · exact Or.inl ⟨_, validateFile_size_fail h1⟩
  by_cases h2 : c.type ∈ opts.allowedTypes
  · by_cases h3 : lowerString (getFileExtension c.name) ∈ opts.allowedExtensions
    · by_cases h4 : sanitizeFileName c.name = c.name
      · rcases performSecurityChecks_shape c with h | ⟨m, h⟩
        · exact Or.inr (Or.inr ((validateFile_security h1 h2 h3 h4).trans h))
        · exact Or.inl ⟨m, (validateFile_security h1 h2 h3 h4).trans h⟩
      · exact Or.inr (Or.inl ⟨_, validateFile_renames h1 h2 h3 h4⟩)
    · exact Or.inl ⟨_, validateFile_ext_fail h1 h2 h3⟩
  · exact Or.inl ⟨_, validateFile_type_fail h1 h2⟩

/-! ## The extracted extension never holds a dot -/

theorem lowerChar_eq_dot {c : Char} (h : lowerChar c = '.') : c = '.' := by
  unfold lowerChar at h
  cases hf : asciiCasePairs.find? (fun p => p.1 == c) with
  | none => rw [hf] at h; exact h
  | some p =>
    rw [hf] at h
    have hm := List.mem_of_find?_eq_some hf
    have hall : ∀ q ∈ asciiCasePairs, q.2 ≠ '.' := by decide
    exact absurd h (hall p hm)

theorem getFileExtension_no_dot (s : String) :
    ∀ ch ∈ (getFileExtension s).data, ch ≠ '.' := by
  intro ch hch
  unfold getFileExtension at hch
  split at hch
  · rw [show (String.mk ((s.data.reverse.takeWhile (fun c => c != '.')).reverse)).data
        = (s.data.reverse.takeWhile (fun c => c != '.')).reverse from rfl,
      List.mem_reverse] at hch
    simpa using List.mem_takeWhile_imp hch
  · simp [String.data] at hch

theorem lowerString_ext_not_mem_default (s : String) :
    lowerString (getFileExtension s) ∉ DEFAULT_OPTIONS.allowedExtensions := by
  intro h
  have hd : ∀ e ∈ DEFAULT_OPTIONS.allowedExtensions, '.' ∈ e.data := by decide
  have hdot : '.' ∈ lowerChars (getFileExtension s).data := hd _ h
  rcases List.mem_map.mp (by simpa [lowerChars] using hdot) with ⟨a, ha, hla⟩
  exact getFileExtension_no_dot s a ha (lowerChar_eq_dot hla)

/-! ## Claim theorems -/

/-- Input exhibiting the extension-check defect: a dotted allowlist, as in
`DEFAULT_OPTIONS`, restricted to `.pdf`. -/
def c1Options : FileValidationOptions where
  maxSizeBytes := 10 * 1024 * 1024
  allowedTypes := ["application/pdf"]
  allowedExtensions := [".pdf"]
  scanForMalware := false

def c1Lower : FileCandidate where
  name := "file.pdf"
  size := 4
  type := "application/pdf"
  content := some [37, 80, 68, 70]

def c1Upper : FileCandidate := { c1Lower with name := "FILE.PDF" }

/-- C1: the spec states that with `.pdf` on the allowlist the extension
check accepts both `"FILE.PDF"` and `"file.pdf"`. The code extracts the
extension *without* its leading dot (`"pdf"` / `"PDF"`), so against the
dotted allowlist `[".pdf"]` both candidates — which pass the size and
declared-type checks — are rejected with the unsupported-extension
message: the code contradicts the documented intent. -/
theorem c1_dotted_allowlist_rejects_both_cases :
    getFileExtension "file.pdf" = "pdf" ∧ getFileExtension "FILE.PDF" = "PDF" ∧
    validateFile c1Options c1Lower =
      { isValid := false,
        error := some "Unsupported file extension: pdf. Allowed extensions: .pdf",
        sanitizedFile := none } ∧
    validateFile c1Options c1Upper =
      { isValid := false,
        error := some "Unsupported file extension: PDF. Allowed extensions: .pdf",
        sanitizedFile := none } := by
  refine ⟨by decide, by decide, by decide, by decide⟩

/-- C4: `getFileExtension` never yields a string holding `'.'`, every
default `allowedExtensions` entry begins with `'.'`, hence the lowered
extension is never on the default allowlist and the exported default
validator instance rejects every candidate. -/
theorem c4_default_validator_never_valid :
    (∀ s : String, '.' ∉ (getFileExtension s).data) ∧
    (∀ s : String, lowerString (getFileExtension s) ∉ fileValidator.allowedExtensions) ∧
    (∀ c : FileCandidate, (validateFile fileValidator c).isValid = false) := by
  refine ⟨fun s h => getFileExtension_no_dot s _ h rfl,
    fun s => lowerString_ext_not_mem_default s, fun c => ?_⟩
  by_cases h1 : c.size > fileValidator.maxSizeBytes
  · rw [validateFile_size_fail h1]
  · by_cases h2 : c.type ∈ fileValidator.allowedTypes
    · rw [validateFile_ext_fail h1 h2 (lowerString_ext_not_mem_default c.name)]
    · rw [validateFile_type_fail h1 h2]

theorem c4_default_validator_never_valid_witness :
    (validateFile fileValidator
      { name := "file.pdf", size := 4, type := "application/pdf",
        content := some [37, 80, 68, 70] }).isValid = false :=
  c4_default_validator_never_valid.2.2 _

/-- C5: a valid result never carries an error message, an invalid result
never carries a sanitized replacement, and no result populates both
optional fields. -/
theorem c5_error_and_sanitized_exclusive :
    ∀ (opts : FileValidationOptions) (c : FileCandidate),
      ((validateFile opts c).isValid = true → (validateFile opts c).error = none) ∧
      ((validateFile opts c).isValid = false → (validateFile opts c).sanitizedFile = none) ∧
      ((validateFile opts c).error = none ∨ (validateFile opts c).sanitizedFile = none) := by
  intro opts c
  rcases validateFile_shape opts c with ⟨m, h⟩ | ⟨s, h⟩ | h <;> rw [h] <;>
    exact ⟨by simp, by simp, by simp⟩

theorem c5_error_and_sanitized_exclusive_witness :
    (validateFile DEFAULT_OPTIONS
      { name := "noext", size := 1, type := "text/plain", content := none }).sanitizedFile
        = none :=
  (c5_error_and_sanitized_exclusive DEFAULT_OPTIONS
    { name := "noext", size := 1, type := "text/plain", content := none }).2.1 (by decide)

/-- C10: a name without `'.'` yields the empty extension, and when the size
and declared-type checks pass and the allowlist does not hold the empty
string (the default allowlist does not), the extension check fails with
the unsupported-extension message. -/
theorem c10_no_dot_name_always_fails_extension_check
    (opts : FileValidationOptions) (c : FileCandidate)
    (h0 : '.' ∉ c.name.data)
    (h1 : ¬c.size > opts.maxSizeBytes) (h2 : c.type ∈ opts.allowedTypes)
    (h3 : "" ∉ opts.allowedExtensions) :
    getFileExtension c.name = "" ∧
    validateFile opts c =
      { isValid := false, error := some (extErrorMsg opts c), sanitizedFile := none } := by
  have hext : getFileExtension c.name = "" := by
    unfold getFileExtension
    have h0' : '.' ∉ List.drop 1 c.name.data := fun hm => h0 (List.mem_of_mem_drop hm)
    rw [if_neg (by simpa using h0')]
  refine ⟨hext, validateFile_ext_fail h1 h2 ?_⟩
  rw [hext]
  exact h3

theorem c10_no_dot_name_always_fails_extension_check_witness :
    getFileExtension "noext" = "" ∧
    validateFile DEFAULT_OPTIONS
        { name := "noext", size := 4, type := "application/pdf", content := some [] } =
      { isValid := false,
        error := some (extErrorMsg DEFAULT_OPTIONS
          { name := "noext", size := 4, type := "application/pdf", content := some [] }),
        sanitizedFile := none } :=
  c10_no_dot_name_always_fails_extension_check DEFAULT_OPTIONS
    { name := "noext", size := 4, type := "application/pdf", content := some [] }
    (by decide) (by decide) (by decide) (by decide)

/-- C2: a candidate that passes the size, declared-type and extension
checks, whose name sanitization is the identity, whose name matches no
denylist suffix, and whose content begins with `%PDF` whenever the
declared type is `application/pdf`, is accepted with neither an error
message nor a sanitized replacement. -/
theorem c2_fully_valid_candidate_accepted
    (opts : FileValidationOptions) (c : FileCandidate)
    (h1 : ¬c.size > opts.maxSizeBytes) (h2 : c.type ∈ opts.allowedTypes)
    (h3 : lowerString (getFileExtension c.name) ∈ opts.allowedExtensions)
    (h4 : sanitizeFileName c.name = c.name)
    (h5 : matchesSuspiciousPattern c.name = false)
    (h6 : c.type = "application/pdf" → validatePdfHeader c = true) :
    validateFile opts c = { isValid := true, error := none, sanitizedFile := none } :=
  (validateFile_security h1 h2 h3 h4).trans (psc_valid h5 h6)

theorem c2_fully_valid_candidate_accepted_witness :
    validateFile
        { maxSizeBytes := 100, allowedTypes := ["application/pdf"],
          allowedExtensions := ["pdf"], scanForMalware := false }
        { name := "doc.pdf", size := 4, type := "application/pdf",
          content := some [37, 80, 68, 70] } =
      { isValid := true, error := none, sanitizedFile := none } :=
  c2_fully_valid_candidate_accepted
    { maxSizeBytes := 100, allowedTypes := ["application/pdf"],
      allowedExtensions := ["pdf"], scanForMalware := false }
    { name := "doc.pdf", size := 4, type := "application/pdf",
      content := some [37, 80, 68, 70] }
    (by decide) (by decide) (by decide) (by decide) (by decide) (fun _ => by decide)

/-- C3: when the size, declared-type and extension checks pass and
sanitization changes the name, `validateFile` returns immediately: valid,
no error, and a `sanitizedFile` copy with the cleaned name but the same
size, declared type and bytes — whatever the denylist or header checks
would have said (the conclusion holds for every content and any
denylist-matching name). -/
theorem c3_rename_short_circuits
    (opts : FileValidationOptions) (c : FileCandidate)
    (h1 : ¬c.size > opts.maxSizeBytes) (h2 : c.type ∈ opts.allowedTypes)
    (h3 : lowerString (getFileExtension c.name) ∈ opts.allowedExtensions)
    (h4 : sanitizeFileName c.name ≠ c.name) :
    validateFile opts c =
      { isValid := true, error := none,
        sanitizedFile := some
          { name := sanitizeFileName c.name, size := c.size, type := c.type,
            content := c.content } } :=
  validateFile_renames h1 h2 h3 h4

/-- The witness candidate both matches the `.js` denylist suffix and has
unreadable content, yet the rename branch returns valid: the skipped
checks are visibly skipped. -/
theorem c3_rename_short_circuits_witness :
    matchesSuspiciousPattern "evil script.js" = true ∧
    validatePdfHeader
      { name := "evil script.js", size := 7, type := "application/pdf",
        content := none } = false ∧
    validateFile
        { maxSizeBytes := 100, allowedTypes := ["application/pdf"],
          allowedExtensions := ["js"], scanForMalware := false }
        { name := "evil script.js", size := 7, type := "application/pdf",
          content := none } =
      { isValid := true, error := none,
        sanitizedFile := some
          { name := "evil_script.js", size := 7, type := "application/pdf",
            content := none } } := by
  refine ⟨by decide, by decide, ?_⟩
  exact c3_rename_short_circuits
    { maxSizeBytes := 100, allowedTypes := ["application/pdf"],
      allowedExtensions := ["js"], scanForMalware := false }
    { name := "evil script.js", size := 7, type := "application/pdf", content := none }
    (by decide) (by decide) (by decide) (by decide)

/-- C7 counterexample: under the default configuration with declared type
`image/png` — which passes the declared-type check — the candidate named
`"invoice.pdf.exe"` is rejected by the *extension* check with the
unsupported-extension message, not by the security denylist, whose check
is never reached. -/
theorem c7_counterexample_rejected_by_extension_check :
    validateFile DEFAULT_OPTIONS
        { name := "invoice.pdf.exe", size := 4, type := "image/png",
          content := some [] } =
      { isValid := false,
        error := some
          "Unsupported file extension: exe. Allowed extensions: .pdf, .jpg, .jpeg, .png, .gif, .webp",
        sanitizedFile := none } ∧
    ("Unsupported file extension: exe. Allowed extensions: .pdf, .jpg, .jpeg, .png, .gif, .webp" : String) ≠
      "File type not allowed for security reasons" :=
  ⟨by decide, by decide⟩

/-- C7 (amended): every candidate named `"invoice.pdf.exe"` is rejected
under every configuration, declared MIME type, size and content; when the
size, declared-type and extension checks pass, the rejection is produced
by the security denylist with its fixed message (under the default
configuration the rejection instead comes from an earlier check). -/
theorem c7_invoice_pdf_exe_always_invalid
    (opts : FileValidationOptions) (c : FileCandidate)
    (hname : c.name = "invoice.pdf.exe") :
    (validateFile opts c).isValid = false ∧
    (¬c.size > opts.maxSizeBytes → c.type ∈ opts.allowedTypes →
      lowerString (getFileExtension c.name) ∈ opts.allowedExtensions →
      validateFile opts c =
        { isValid := false,
          error := some "File type not allowed for security reasons",
          sanitizedFile := none }) := by
  have hsan : sanitizeFileName c.name = c.name := by rw [hname]; decide
  have hsusp : matchesSuspiciousPattern c.name = true := by rw [hname]; decide
  have hsec : ∀ h1 h2 h3, validateFile opts c =
      { isValid := false,
        error := some "File type not allowed for security reasons",
        sanitizedFile := none } :=
    fun h1 h2 h3 => (validateFile_security h1 h2 h3 hsan).trans (psc_suspicious hsusp)
  refine ⟨?_, hsec⟩
  by_cases h1 : c.size > opts.maxSizeBytes
  · rw [validateFile_size_fail h1]
  · by_cases h2 : c.type ∈ opts.allowedTypes
    · by_cases h3 : lowerString (getFileExtension c.name) ∈ opts.allowedExtensions
      · rw [hsec h1 h2 h3]
      · rw [validateFile_ext_fail h1 h2 h3]
    · rw [validateFile_type_fail h1 h2]

theorem c7_invoice_pdf_exe_always_invalid_witness :
    validateFile
        { maxSizeBytes := 100, allowedTypes := ["application/pdf"],
          allowedExtensions := ["exe"], scanForMalware := false }
        { name := "invoice.pdf.exe", size := 4, type := "application/pdf",
          content := some [] } =
      { isValid := false,
        error := some "File type not allowed for security reasons",
        sanitizedFile := none } :=
  (c7_invoice_pdf_exe_always_invalid
    { maxSizeBytes := 100, allowedTypes := ["application/pdf"],
      allowedExtensions := ["exe"], scanForMalware := false }
    { name := "invoice.pdf.exe", size := 4, type := "application/pdf",
      content := some [] } rfl).2 (by decide) (by decide) (by decide)

/-- C8: a candidate declared `application/pdf` that passes the size, type,
extension and denylist checks, needs no rename, and whose first 4 content
bytes are not `%PDF`, is rejected with the invalid-content-signature
message. -/
theorem c8_bad_pdf_header_rejected
    (opts : FileValidationOptions) (c : FileCandidate) (bs : List Nat)
    (h1 : ¬c.size > opts.maxSizeBytes) (h2 : c.type ∈ opts.allowedTypes)
    (h3 : lowerString (getFileExtension c.name) ∈ opts.allowedExtensions)
    (h4 : sanitizeFileName c.name = c.name)
    (h5 : matchesSuspiciousPattern c.name = false)
    (ht : c.type = "application/pdf")
    (hbs : c.content = some bs) (hbad : bs.take 4 ≠ [37, 80, 68, 70]) :
    validateFile opts c =
      { isValid := false, error := some "Invalid PDF file format",
        sanitizedFile := none } := by
  have hh : validatePdfHeader c = false := by
    unfold validatePdfHeader
    rw [hbs]
    simpa using hbad
  exact (validateFile_security h1 h2 h3 h4).trans (psc_pdf_header_fail h5 ht hh)

theorem c8_bad_pdf_header_rejected_witness :
    validateFile
        { maxSizeBytes := 100, allowedTypes := ["application/pdf"],
          allowedExtensions := ["pdf"], scanForMalware := false }
        { name := "doc.pdf", size := 4, type := "application/pdf",
          content := some [74, 85, 78, 75] } =
      { isValid := false, error := some "Invalid PDF file format",
        sanitizedFile := none } :=
  c8_bad_pdf_header_rejected
    { maxSizeBytes := 100, allowedTypes := ["application/pdf"],
      allowedExtensions := ["pdf"], scanForMalware := false }
    { name := "doc.pdf", size := 4, type := "application/pdf",
      content := some [74, 85, 78, 75] }
    [74, 85, 78, 75]
    (by decide) (by decide) (by decide) (by decide) (by decide) (by decide)
    rfl (by decide)

/-- C9: `validateFile` is the `catch`-wrapped `try` body. The body is
total: for every configuration and candidate — including candidates whose
content is unreadable — it completes with `Except.ok`, and `validateFile`
returns that result unchanged; a fault raised anywhere inside the body
surfaces through `catchValidation` as an invalid result carrying the
generic `"File validation failed: ..."` message, never as a propagated
fault. -/
theorem c9_no_fault_propagates :
    (∀ (opts : FileValidationOptions) (c : FileCandidate),
      ∃ r, validateFileBody opts c = Except.ok r ∧ validateFile opts c = r) ∧
    (∀ m, catchValidation (Except.error m) =
      { isValid := false, error := some ("File validation failed: " ++ m),
        sanitizedFile := none }) := by
  refine ⟨fun opts c => ?_, fun m => rfl⟩
  cases hb : validateFileBody opts c with
  | ok r => exact ⟨r, rfl, by unfold validateFile; rw [hb]; rfl⟩
  | error m =>
    exfalso
    unfold validateFileBody at hb
    split at hb
    · cases hb
    · split at hb
      · cases hb
      · split at hb
        · cases hb
        · split at hb
          · cases hb
          · split at hb
            · cases hb
            · cases hb

/-! ## Sanitization: structure of `collapseRuns` output -/

theorem collapseRuns_cons_pos_true {p : Char → Bool} {sub a : Char} {rest : List Char}
    (hp : p a = true) :
    collapseRuns p sub (a :: rest) true = collapseRuns p sub rest true := by
  simp [collapseRuns, hp]

theorem collapseRuns_cons_pos_false {p : Char → Bool} {sub a : Char} {rest : List Char}
    (hp : p a = true) :
    collapseRuns p sub (a :: rest) false = sub :: collapseRuns p sub rest true := by
  simp [collapseRuns, hp]

theorem collapseRuns_cons_neg {p : Char → Bool} {sub a : Char} {rest : List Char} {b : Bool}
    (hp : p a = false) :
    collapseRuns p sub (a :: rest) b = a :: collapseRuns p sub rest false := by
  simp [collapseRuns, hp]

/-- Every character of the output either is the substitute or fails `p`. -/
theorem out_collapseRuns {p : Char → Bool} {sub : Char} :
    ∀ (l : List Char) (b : Bool), ∀ c ∈ collapseRuns p sub l b, c = sub ∨ p c = false := by
  intro l
  induction l with
  | nil => intro b c h; simp [collapseRuns] at h
  | cons a rest ih =>
    intro b c h
    cases hp : p a with
    | true =>
      cases b with
      | true => rw [collapseRuns_cons_pos_true hp] at h; exact ih true c h
      | false =>
        rw [collapseRuns_cons_pos_false hp] at h
        rcases List.mem_cons.mp h with h | h
        · exact Or.inl h
        · exact ih true c h
    | false =>
      rw [collapseRuns_cons_neg hp] at h
      rcases List.mem_cons.mp h with h | h
      · exact Or.inr (h ▸ hp)
      · exact ih false c h

/-- Every character of the output either is the substitute or came from the
input. -/
theorem mem_collapseRuns {p : Char → Bool} {sub : Char} :
    ∀ (l : List Char) (b : Bool), ∀ c ∈ collapseRuns p sub l b, c = sub ∨ c ∈ l := by
  intro l
  induction l with
  | nil => intro b c h; simp [collapseRuns] at h
  | cons a rest ih =>
    intro b c h
    cases hp : p a with
    | true =>
      cases b with
      | true =>
        rw [collapseRuns_cons_pos_true hp] at h
        rcases ih true c h with h | h
        · exact Or.inl h
        · exact Or.inr (List.mem_cons_of_mem a h)
      | false =>
        rw [collapseRuns_cons_pos_false hp] at h
        rcases List.mem_cons.mp h with h | h
        · exact Or.inl h
        · rcases ih true c h with h | h
          · exact Or.inl h
          · exact Or.inr (List.mem_cons_of_mem a h)
    | false =>
      rw [collapseRuns_cons_neg hp] at h
      rcases List.mem_cons.mp h with h | h
      · exact Or.inr (h ▸ List.mem_cons_self a rest)
      · rcases ih false c h with h | h
        · exact Or.inl h
        · exact Or.inr (List.mem_cons_of_mem a h)

/-- A list without `p`-characters is left unchanged. -/
theorem collapseRuns_eq_self_of_none {p : Char → Bool} {sub : Char} :
    ∀ (l : List Char) (b : Bool), (∀ c ∈ l, p c = false) → collapseRuns p sub l b = l := by
  intro l
  induction l with
  | nil => intro b _; rfl
  | cons a rest ih =>
    intro b hall
    rw [collapseRuns_cons_neg (hall a (List.mem_cons_self a rest))]
    rw [ih false (fun c hc => hall c (List.mem_cons_of_mem a hc))]

/-- In run-continuation mode the output never starts with a `p`-character. -/
theorem collapseRuns_true_head {p : Char → Bool} {sub : Char} :
    ∀ (l : List Char) (c : Char) (t : List Char),
      collapseRuns p sub l true = c :: t → p c = false := by
  intro l
  induction l with
  | nil => intro c t h; cases h
  | cons a rest ih =>
    intro c t h
    cases hp : p a with
    | true => rw [collapseRuns_cons_pos_true hp] at h; exact ih c t h
    | false => rw [collapseRuns_cons_neg hp] at h; cases h; exact hp

/-- Adjacent output positions never both satisfy `p`. -/
def noAdjacentRel (p : Char → Bool) (a b : Char) : Prop :=
  ¬(p a = true ∧ p b = true)

theorem chain'_collapseRuns {p : Char → Bool} {sub : Char} :
    ∀ (l : List Char) (b : Bool),
      List.Chain' (noAdjacentRel p) (collapseRuns p sub l b) := by
  intro l
  induction l with
  | nil => intro b; simp [collapseRuns]
  | cons a rest ih =>
    intro b
    cases hp : p a with
    | true =>
      cases b with
      | true => rw [collapseRuns_cons_pos_true hp]; exact ih true
      | false =>
        rw [collapseRuns_cons_pos_false hp, List.chain'_cons']
        refine ⟨?_, ih true⟩
        intro y hy
        cases hX : collapseRuns p sub rest true with
        | nil => rw [hX] at hy; cases hy
        | cons c t =>
          rw [hX] at hy
          simp only [List.head?_cons, Option.mem_def, Option.some.injEq] at hy
          subst hy
          intro hcon
          rw [collapseRuns_true_head rest c t hX] at hcon
          exact Bool.false_ne_true hcon.2
    | false =>
      rw [collapseRuns_cons_neg hp, List.chain'_cons']
      refine ⟨?_, ih false⟩
      intro y _ hcon
      rw [hp] at hcon
      exact Bool.false_ne_true hcon.1

/-- A list whose `p`-characters are all the substitute, with no two
adjacent, and (in run mode) not at the head, is left unchanged. -/
theorem collapseRuns_eq_self_of_chain {p : Char → Bool} {sub : Char} :
    ∀ (l : List Char) (b : Bool),
      List.Chain' (noAdjacentRel p) l →
      (∀ c ∈ l, p c = true → c = sub) →
      (b = true → ∀ c t, l = c :: t → p c = false) →
      collapseRuns p sub l b = l := by
  intro l
  induction l with
  | nil => intro b _ _ _; rfl
  | cons a rest ih =>
    intro b hch hmem hhead
    cases hp : p a with
    | true =>
      cases b with
      | true => exact absurd (hhead rfl a rest rfl) (by simp [hp])
      | false =>
        rw [collapseRuns_cons_pos_false hp,
          hmem a (List.mem_cons_self a rest) hp]
        congr 1
        refine ih true hch.tail (fun c hc => hmem c (List.mem_cons_of_mem a hc)) ?_
        intro _ c t hrest
        rw [hrest] at hch
        have hR := (List.chain'_cons'.mp hch).1 c (by simp)
        cases hpc : p c with
        | true => exact absurd ⟨hp, hpc⟩ hR
        | false => rfl
    | false =>
      rw [collapseRuns_cons_neg hp]
      congr 1
      exact ih false hch.tail (fun c hc => hmem c (List.mem_cons_of_mem a hc))
        (fun h => absurd h Bool.false_ne_true)

theorem length_collapseRuns {p : Char → Bool} {sub : Char} :
    ∀ (l : List Char) (b : Bool), (collapseRuns p sub l b).length ≤ l.length := by
  intro l
  induction l with
  | nil => intro b; simp [collapseRuns]
  | cons a rest ih =>
    intro b
    cases hp : p a with
    | true =>
      cases b with
      | true =>
        rw [collapseRuns_cons_pos_true hp]
        exact le_trans (ih true) (Nat.le_succ _)
      | false =>
        rw [collapseRuns_cons_pos_false hp]
        simpa using ih true
    | false =>
      rw [collapseRuns_cons_neg hp]
      simpa using ih false

/-! ## Sanitization: stripping underscores -/

theorem dropWhile_head_false {p : Char → Bool} :
    ∀ {l : List Char} {c : Char} {t : List Char},
      List.dropWhile p l = c :: t → p c = false := by
  intro l
  induction l with
  | nil => intro c t h; cases h
  | cons a rest ih =>
    intro c t h
    cases hp : p a with
    | true => rw [List.dropWhile_cons, if_pos hp] at h; exact ih h
    | false =>
      rw [List.dropWhile_cons, if_neg (by simp [hp])] at h
      cases h; exact hp

theorem dropWhile_stripUnderscores (l : List Char) :
    List.dropWhile isUnderscore (stripUnderscores l) = stripUnderscores l := by
  unfold stripUnderscores
  cases hY : List.rdropWhile isUnderscore (List.dropWhile isUnderscore l) with
  | nil => simp
  | cons c t =>
    have hpre := List.rdropWhile_prefix isUnderscore (List.dropWhile isUnderscore l)
    rw [hY] at hpre
    obtain ⟨t2, ht2⟩ := hpre
    have hc : isUnderscore c = false := dropWhile_head_false ht2.symm
    rw [List.dropWhile_cons, if_neg (by simp [hc])]

theorem stripUnderscores_idem (l : List Char) :
    stripUnderscores (stripUnderscores l) = stripUnderscores l := by
  rw [show stripUnderscores (stripUnderscores l)
      = List.rdropWhile isUnderscore
          (List.dropWhile isUnderscore (stripUnderscores l)) from rfl,
    dropWhile_stripUnderscores l,
    show stripUnderscores l
      = List.rdropWhile isUnderscore (List.dropWhile isUnderscore l) from rfl]
  exact List.rdropWhile_idempotent _ _

theorem stripUnderscores_isInfix (l : List Char) : stripUnderscores l <:+: l := by
  have h1 := List.rdropWhile_prefix isUnderscore (List.dropWhile isUnderscore l)
  have h2 := List.dropWhile_suffix (l := l) isUnderscore
  exact List.IsInfix.trans ( List.IsPrefix.isInfix h1) ( List.IsSuffix.isInfix h2)

theorem length_stripUnderscores_le (l : List Char) :
    (stripUnderscores l).length ≤ l.length :=
  List.IsInfix.length_le (stripUnderscores_isInfix l)

/-! ## Sanitization idempotence for names of UTF-16 length at most 255 -/

/-- The pre-truncation part of `sanitizeChars`. -/
def sanitizeCore (l : List Char) : List Char :=
  stripUnderscores
    (collapseRuns isUnderscore '_'
      (collapseRuns isJsWhitespace '_' (replaceDangerous l) false) false)

theorem sanitizeChars_eq_core (l : List Char) :
    sanitizeChars l = takeUnits 255 (sanitizeCore l) := rfl

theorem length_sanitizeCore_le (l : List Char) :
    (sanitizeCore l).length ≤ l.length := by
  refine le_trans (length_stripUnderscores_le _) ?_
  refine le_trans (length_collapseRuns _ _) ?_
  refine le_trans (length_collapseRuns _ _) ?_
  exact le_of_eq (List.length_map _ _)

theorem one_le_utf16Len (c : Char) : 1 ≤ utf16Len c := by
  unfold utf16Len
  split <;> omega

theorem utf16Length_cons (a : Char) (l : List Char) :
    utf16Length (a :: l) = utf16Len a + utf16Length l := by
  simp [utf16Length]

/-- Every list needs at most `n` units to be kept whole by `takeUnits n`. -/
theorem takeUnits_eq_self :
    ∀ (n : Nat) (l : List Char), utf16Length l ≤ n → takeUnits n l = l := by
  intro n l
  induction l generalizing n with
  | nil => intro _; rfl
  | cons a rest ih =>
    intro h
    rw [utf16Length_cons] at h
    simp only [takeUnits]
    rw [if_pos (by omega), ih (n - utf16Len a) (by omega)]

theorem utf16Length_map_le (f : Char → Char)
    (hf : ∀ c, utf16Len (f c) ≤ utf16Len c) :
    ∀ l : List Char, utf16Length (l.map f) ≤ utf16Length l := by
  intro l
  induction l with
  | nil => exact le_refl _
  | cons a rest ih =>
    rw [List.map_cons, utf16Length_cons, utf16Length_cons]
    exact Nat.add_le_add (hf a) ih

theorem utf16Length_collapseRuns_le {p : Char → Bool} {sub : Char}
    (hsub : utf16Len sub = 1) :
    ∀ (l : List Char) (b : Bool),
      utf16Length (collapseRuns p sub l b) ≤ utf16Length l := by
  intro l
  induction l with
  | nil => intro b; simp [collapseRuns, utf16Length]
  | cons a rest ih =>
    intro b
    have ha := one_le_utf16Len a
    cases hp : p a with
    | true =>
      cases b with
      | true =>
        rw [collapseRuns_cons_pos_true hp, utf16Length_cons]
        have := ih true
        omega
      | false =>
        rw [collapseRuns_cons_pos_false hp, utf16Length_cons, utf16Length_cons, hsub]
        have := ih true
        omega
    | false =>
      rw [collapseRuns_cons_neg hp, utf16Length_cons, utf16Length_cons]
      have := ih false
      omega

theorem utf16Length_infix_le {l₁ l₂ : List Char} (h : l₁ <:+: l₂) :
    utf16Length l₁ ≤ utf16Length l₂ := by
  obtain ⟨s, t, rfl⟩ := h
  simp only [utf16Length, List.map_append, List.sum_append]
  omega

theorem utf16Length_sanitizeCore_le (l : List Char) :
    utf16Length (sanitizeCore l) ≤ utf16Length l := by
  refine le_trans (utf16Length_infix_le (stripUnderscores_isInfix _)) ?_
  refine le_trans (utf16Length_collapseRuns_le (by decide) _ _) ?_
  refine le_trans (utf16Length_collapseRuns_le (by decide) _ _) ?_
  refine utf16Length_map_le _ (fun c => ?_) l
  by_cases hd : dangerousChars.contains c
  · rw [if_pos hd, show utf16Len '_' = 1 from by decide]
    exact one_le_utf16Len c
  · rw [if_neg hd]

theorem map_eq_self_of_fixed {f : Char → Char} :
    ∀ (l : List Char), (∀ c ∈ l, f c = c) → l.map f = l := by
  intro l
  induction l with
  | nil => intro _; rfl
  | cons a rest ih =>
    intro h
    rw [List.map_cons, h a (List.mem_cons_self a rest),
      ih (fun c hc => h c (List.mem_cons_of_mem a hc))]

theorem replaceDangerous_no_danger (l : List Char) :
    ∀ c ∈ replaceDangerous l, dangerousChars.contains c = false := by
  intro c hc
  rcases List.mem_map.mp hc with ⟨a, _, rfl⟩
  by_cases hd : dangerousChars.contains a
  · rw [if_pos hd]; decide
  · rw [if_neg hd]; simpa using hd

theorem sanitizeCore_no_danger (l : List Char) :
    ∀ c ∈ sanitizeCore l, dangerousChars.contains c = false := by
  intro c hc
  have hcU := List.IsInfix.subset (stripUnderscores_isInfix _) hc
  rcases mem_collapseRuns _ _ _ hcU with rfl | hcW
  · decide
  · rcases mem_collapseRuns _ _ _ hcW with rfl | hcD
    · decide
    · exact replaceDangerous_no_danger l c hcD

theorem sanitizeCore_no_whitespace (l : List Char) :
    ∀ c ∈ sanitizeCore l, isJsWhitespace c = false := by
  intro c hc
  have hcU := List.IsInfix.subset (stripUnderscores_isInfix _) hc
  rcases mem_collapseRuns _ _ _ hcU with rfl | hcW
  · decide
  · rcases out_collapseRuns _ _ _ hcW with rfl | hws
    · decide
    · exact hws

theorem sanitizeCore_chain (l : List Char) :
    List.Chain' (noAdjacentRel isUnderscore) (sanitizeCore l) :=
  List.Chain'.infix (chain'_collapseRuns _ _) (stripUnderscores_isInfix _)

/-- Sanitization is idempotent on character lists of UTF-16 length at
most 255: the truncation step is then inert, and the pre-truncation
output is a fixed point of every stage of the pipeline. -/
theorem sanitizeChars_idem (l : List Char) (hlen : utf16Length l ≤ 255) :
    sanitizeChars (sanitizeChars l) = sanitizeChars l := by
  have hcore_len : utf16Length (sanitizeCore l) ≤ 255 :=
    le_trans (utf16Length_sanitizeCore_le l) hlen
  have h1 : sanitizeChars l = sanitizeCore l := by
    rw [sanitizeChars_eq_core]
    exact takeUnits_eq_self 255 _ hcore_len
  rw [h1]
  have e1 : replaceDangerous (sanitizeCore l) = sanitizeCore l :=
    map_eq_self_of_fixed _
      (fun c hc => by rw [if_neg (by simpa using sanitizeCore_no_danger l c hc)])
  have e2 : collapseRuns isJsWhitespace '_' (sanitizeCore l) false = sanitizeCore l :=
    collapseRuns_eq_self_of_none _ false (sanitizeCore_no_whitespace l)
  have e3 : collapseRuns isUnderscore '_' (sanitizeCore l) false = sanitizeCore l := by
    refine collapseRuns_eq_self_of_chain _ false (sanitizeCore_chain l) ?_
      (fun h => absurd h Bool.false_ne_true)
    intro c _ hc
    simpa [isUnderscore] using hc
  have e4 : stripUnderscores (sanitizeCore l) = sanitizeCore l :=
    stripUnderscores_idem _
  show takeUnits 255
    (stripUnderscores
      (collapseRuns isUnderscore '_'
        (collapseRuns isJsWhitespace '_' (replaceDangerous (sanitizeCore l)) false) false))
    = sanitizeCore l
  rw [e1, e2, e3, e4]
  exact takeUnits_eq_self 255 _ hcore_len

theorem sanitizeFileName_idem (s : String) (h : utf16Length s.data ≤ 255) :
    sanitizeFileName (sanitizeFileName s) = sanitizeFileName s := by
  unfold sanitizeFileName
  rw [show (String.mk (sanitizeChars s.data)).data = sanitizeChars s.data from rfl,
    sanitizeChars_idem s.data h]

/-- A result carrying a `sanitizedFile` can only come from the rename
branch: checks 1–3 passed, the name actually changed, and the replacement
is the same candidate with the cleaned name. -/
theorem validateFile_rename_inv {opts : FileValidationOptions} {c s : FileCandidate}
    (h : (validateFile opts c).sanitizedFile = some s) :
    ¬c.size > opts.maxSizeBytes ∧ c.type ∈ opts.allowedTypes ∧
    lowerString (getFileExtension c.name) ∈ opts.allowedExtensions ∧
    sanitizeFileName c.name ≠ c.name ∧
    s = { c with name := sanitizeFileName c.name } := by
  by_cases h1 : c.size > opts.maxSizeBytes
  · rw [validateFile_size_fail h1] at h; cases h
  · by_cases h2 : c.type ∈ opts.allowedTypes
    · by_cases h3 : lowerString (getFileExtension c.name) ∈ opts.allowedExtensions
      · by_cases h4 : sanitizeFileName c.name = c.name
        · rw [validateFile_security h1 h2 h3 h4] at h
          rcases performSecurityChecks_shape c with hs | ⟨m, hs⟩ <;> rw [hs] at h <;> cases h
        · rw [validateFile_renames h1 h2 h3 h4] at h
          exact ⟨h1, h2, h3, h4, (Option.some.inj h).symm⟩
      · rw [validateFile_ext_fail h1 h2 h3] at h; cases h
    · rw [validateFile_type_fail h1 h2] at h; cases h

/-- C6 counterexample, both failure modes of the claim. First, at the
256-character name `aa…a_b` (254 `a`s) the 255-unit truncation exposes a
trailing underscore that a second sanitization pass strips, so
sanitization is not idempotent on every filename. Second, sanitization
can change the extension: `"doc.p df"` (extension `"p df"`, on the
allowlist) is renamed to `"doc.p_df"`, and revalidating the returned
sanitized candidate stops at the extension check (`"p_df"` is not
allowlisted) instead of proceeding to the security-denylist and
PDF-header checks. -/
theorem c6_counterexample_two_failure_modes :
    (sanitizeFileName
        (sanitizeFileName (String.mk (List.replicate 254 'a' ++ ['_', 'b']))) ≠
      sanitizeFileName (String.mk (List.replicate 254 'a' ++ ['_', 'b']))) ∧
    (validateFile
        { maxSizeBytes := 100, allowedTypes := ["application/pdf"],
          allowedExtensions := ["p df"], scanForMalware := false }
        { name := "doc.p df", size := 4, type := "application/pdf",
          content := some [37, 80, 68, 70] }).sanitizedFile =
      some { name := "doc.p_df", size := 4, type := "application/pdf",
             content := some [37, 80, 68, 70] } ∧
    (validateFile
        { maxSizeBytes := 100, allowedTypes := ["application/pdf"],
          allowedExtensions := ["p df"], scanForMalware := false }
        { name := "doc.p_df", size := 4, type := "application/pdf",
          content := some [37, 80, 68, 70] }).isValid = false ∧
    validateFile
        { maxSizeBytes := 100, allowedTypes := ["application/pdf"],
          allowedExtensions := ["p df"], scanForMalware := false }
        { name := "doc.p_df", size := 4, type := "application/pdf",
          content := some [37, 80, 68, 70] } ≠
      performSecurityChecks
        { name := "doc.p_df", size := 4, type := "application/pdf",
          content := some [37, 80, 68, 70] } := by
  refine ⟨by decide, by decide, by decide, by decide⟩

/-- C6 (amended): sanitization is idempotent for every filename of UTF-16
length at most 255 (`substring(0, 255)` is then inert); consequently,
when validation returns a `sanitizedCandidate` for a candidate whose name
has UTF-16 length at most 255 and the cleaned name still passes the
extension check, revalidating the sanitized candidate does not trigger
another rename and proceeds to the security-denylist and PDF-header
checks. -/
theorem c6_sanitize_idempotent_bounded :
    (∀ s : String, utf16Length s.data ≤ 255 →
      sanitizeFileName (sanitizeFileName s) = sanitizeFileName s) ∧
    (∀ (opts : FileValidationOptions) (c r : FileCandidate),
      (validateFile opts c).sanitizedFile = some r →
      utf16Length c.name.data ≤ 255 →
      lowerString (getFileExtension r.name) ∈ opts.allowedExtensions →
      sanitizeFileName r.name = r.name ∧
      validateFile opts r = performSecurityChecks r) := by
  refine ⟨fun s h => sanitizeFileName_idem s h, ?_⟩
  intro opts c r hsome hlen hext
  obtain ⟨h1, h2, _, _, hr⟩ := validateFile_rename_inv hsome
  subst hr
  have hidem : sanitizeFileName (sanitizeFileName c.name) = sanitizeFileName c.name :=
    sanitizeFileName_idem c.name hlen
  exact ⟨hidem, validateFile_security h1 h2 hext hidem⟩

theorem c6_sanitize_idempotent_bounded_witness :
    sanitizeFileName "my_doc.pdf" = "my_doc.pdf" ∧
    validateFile
        { maxSizeBytes := 100, allowedTypes := ["application/pdf"],
          allowedExtensions := ["pdf"], scanForMalware := false }
        { name := "my_doc.pdf", size := 4, type := "application/pdf",
          content := some [37, 80, 68, 70] } =
      performSecurityChecks
        { name := "my_doc.pdf", size := 4, type := "application/pdf",
          content := some [37, 80, 68, 70] } :=
  c6_sanitize_idempotent_bounded.2
    { maxSizeBytes := 100, allowedTypes := ["application/pdf"],
      allowedExtensions := ["pdf"], scanForMalware := false }
    { name := "my doc.pdf", size := 4, type := "application/pdf",
      content := some [37, 80, 68, 70] }
    { name := "my_doc.pdf", size := 4, type := "application/pdf",
      content := some [37, 80, 68, 70] }
    (by decide) (by decide) (by decide)

end FileValidation
